import Mathlib

/-!
Verification development for the ACRJobs recruiter job-search pipeline
(`src/app.py`).  The filtering-and-classification pipeline is embedded
shallowly: each Python string operation is given an executable Lean
counterpart over `List Char`, the per-posting loop becomes a structural
recursion over the fetched list with an explicit state (accepted rows,
exclusion log, oracle-call trace), and the two LLM calls become oracle
functions returning `Except` values.
-/

namespace ACRJobs

/-! ## String primitives (Python `lower`, `in`, `strip`, `split`) -/

/-- Python `s.lower()`: lowercase every character. -/
def lowerStr (s : String) : String := ⟨s.data.map Char.toLower⟩

/-- Python `pat in hay`: substring containment. -/
def containsSub (hay pat : String) : Bool :=
  (List.range (hay.data.length + 1)).any
    (fun i => (hay.data.drop i).take pat.data.length == pat.data)

/-- Drop leading whitespace characters from a character list. -/
def dropLeadingWs : List Char → List Char
  | [] => []
  | c :: cs => if c.isWhitespace then dropLeadingWs cs else c :: cs

/-- Python `s.strip()`: remove leading and trailing whitespace. -/
def trimStr (s : String) : String :=
  ⟨dropLeadingWs ((dropLeadingWs s.data.reverse).reverse)⟩

/-- Helper for `splitWs`: accumulate the current word (reversed) while
scanning. -/
def splitWsAux : List Char → List Char → List (List Char)
  | [], acc => if acc == [] then [] else [acc.reverse]
  | c :: cs, acc =>
      if c.isWhitespace then
        (if acc == [] then splitWsAux cs [] else acc.reverse :: splitWsAux cs [])
      else splitWsAux cs (c :: acc)

/-- Python `s.split()`: split on whitespace runs, dropping empty words. -/
def splitWs (s : String) : List String := (splitWsAux s.data []).map String.mk

/-- Python `s.startswith(pre)`. -/
def strStartsWith (s pre : String) : Bool := s.data.take pre.data.length == pre.data

/-- Python `s.endswith(suf)`. -/
def strEndsWith (s suf : String) : Bool :=
  s.data.reverse.take suf.data.length == suf.data.reverse

/-! ## Data model -/

/-- One job advertisement, with the defensive field defaults of
`src/app.py` lines 63-66 already applied. -/
structure Posting where
  title : String
  company : String
  description : String
  url : String
deriving DecidableEq

/-- A fetched item: either a posting whose fields were extracted, or an
item whose field access raised (handled at `src/app.py` lines 131-133). -/
inductive RawJob where
  | ok : Posting → RawJob
  | malformed : String → RawJob
deriving DecidableEq

/-- One accepted output row (`src/app.py` lines 122-127). -/
structure ResultRow where
  company : String
  jobTitle : String
  link : String
  aiAnalysis : String
deriving DecidableEq

/-- One entry of the exclusion log: company, title, reason. -/
abbrev ExclusionRecord := String × String × String

/-- Trace entry for an upstream LLM call: the agency-classification call
carries the company name, the fit-analysis call the description. -/
inductive OracleCall where
  | agencyCall : String → OracleCall
  | fitCall : String → OracleCall
deriving DecidableEq

/-- Per-run configuration from the input form. -/
structure PipelineConfig where
  jobQuery : String
  maxResults : Nat
  pageSize : Nat
  pageNumber : Nat
  enableAgencyCheck : Bool
  enableFitCheck : Bool
deriving DecidableEq

/-- Outcome of processing one well-formed posting. -/
inductive Decision where
  | excluded : String → Decision
  | accepted : ResultRow → Decision
deriving DecidableEq

/-- An LLM oracle: maps the prompt payload to a response text or an
error message. -/
def Oracle := String → Except String String

/-! ## Per-posting logic (`src/app.py` lines 56-127) -/

/-- The fixed recruiter-hostile phrase list (`src/app.py` line 69). -/
def hostilePhrases : List String :=
  ["no recruiters", "no agencies", "no recruitment agencies"]

/-- The fixed fallback company-name term list (`src/app.py` line 57). -/
def fallback_terms : List String :=
  ["staffing", "recruiting", "recruitment", "talent", "consulting", "agency"]

/-- `keyword_words = job_query.lower().split()` (`src/app.py` line 56). -/
def keyword_words (q : String) : List String := splitWs (lowerStr q)

/-- Does a text contain a recruiter-hostile phrase after lowercasing? -/
def hostileText (s : String) : Bool :=
  hostilePhrases.any (fun t => containsSub (lowerStr s) t)

/-- The hostility check of `src/app.py` lines 67-69: runs on
`f"{title} {desc}".lower()`. -/
def hostileOf (p : Posting) : Bool :=
  hostileText (p.title ++ " " ++ p.description)

/-- The relevance check of `src/app.py` line 72: some keyword token is a
substring of the lowercased title. -/
def relevantOf (q : String) (p : Posting) : Bool :=
  (keyword_words q).any (fun w => containsSub (lowerStr p.title) w)

/-- `agency_answer` (`src/app.py` lines 78-92): the stripped, lowercased
response on success, the string "error" on call failure. -/
def agency_answer (ao : Oracle) (company : String) : String :=
  match ao company with
  | .ok s => lowerStr (trimStr s)
  | .error _ => "error"

/-- The fallback lexical check of `src/app.py` line 98. -/
def fallbackMatch (company : String) : Bool :=
  fallback_terms.any (fun t => containsSub (lowerStr company) t)

/-- The agency-check branch (`src/app.py` lines 94-100): `some reason`
when the posting is to be excluded, `none` when it passes. -/
def agencyExclusion (ao : Oracle) (company : String) : Option String :=
  let a := agency_answer ao company
  if a == "yes" then some "GPT says \x27yes\x27 to agency"
  else if (!(a == "yes" || a == "no")) || a == "error" then
    if fallbackMatch company then
      some "fallback: company name matched agency keyword"
    else none
  else none

/-- The fit-analysis commentary (`src/app.py` lines 103-120): stripped
response on success, `"GPT error: " ++ e` on failure, fixed placeholder
when the check is disabled. -/
def fitAnalysis (cfg : PipelineConfig) (fo : Oracle) (desc : String) : String :=
  if cfg.enableFitCheck then
    match fo desc with
    | .ok s => trimStr s
    | .error e => "GPT error: " ++ e
  else "GPT recruiter-fit check skipped"

/-- Build the output row of `src/app.py` lines 122-127. -/
def mkRow (p : Posting) (analysis : String) : ResultRow :=
  { company := p.company, jobTitle := p.title
    link := "[Open Posting](" ++ p.url ++ ")", aiAnalysis := analysis }

/-- Stages after the two keyword checks (`src/app.py` lines 77-127):
agency check (when enabled) then fit analysis, with the trace of LLM
calls actually made. -/
def postKeywordStage (cfg : PipelineConfig) (ao fo : Oracle) (p : Posting) :
    Decision × List OracleCall :=
  let acalls := if cfg.enableAgencyCheck then [OracleCall.agencyCall p.company] else []
  match (if cfg.enableAgencyCheck then agencyExclusion ao p.company else none) with
  | some r => (.excluded r, acalls)
  | none =>
      let fcalls := if cfg.enableFitCheck then [OracleCall.fitCall p.description] else []
      (.accepted (mkRow p (fitAnalysis cfg fo p.description)), acalls ++ fcalls)

/-- Full per-posting processing (`src/app.py` lines 62-127). -/
def processJob (cfg : PipelineConfig) (ao fo : Oracle) (p : Posting) :
    Decision × List OracleCall :=
  if hostileOf p then (.excluded "contains \x27no recruiters\x27 language", [])
  else if !(relevantOf cfg.jobQuery p) then
    (.excluded "title does not match keyword", [])
  else postKeywordStage cfg ao fo p

/-! ## The per-posting loop (`src/app.py` lines 58-133) -/

/-- Mutable state of the loop: `filtered_results`, `exclusions_log`, and
the trace of upstream LLM calls made so far. -/
structure LoopState where
  results : List ResultRow
  log : List ExclusionRecord
  calls : List OracleCall
deriving DecidableEq

/-- The empty state before the loop (`src/app.py` lines 58-59). -/
def initState : LoopState := ⟨[], [], []⟩

/-- The loop of `src/app.py` lines 61-133.  Returns the final state and
the jobs left unprocessed by the `break` at line 130 (empty when the
loop ran to completion). -/
def runLoop (cfg : PipelineConfig) (ao fo : Oracle) :
    List RawJob → LoopState → LoopState × List RawJob
  | [], s => (s, [])
  | RawJob.malformed e :: rest, s =>
      runLoop cfg ao fo rest
        { s with log := s.log ++ [("Unknown", "Unknown", "job parsing error: " ++ e)] }
  | RawJob.ok p :: rest, s =>
      match processJob cfg ao fo p with
      | (Decision.excluded r, cs) =>
          runLoop cfg ao fo rest
            { s with log := s.log ++ [(p.company, p.title, r)], calls := s.calls ++ cs }
      | (Decision.accepted row, cs) =>
          let s' : LoopState :=
            { s with results := s.results ++ [row], calls := s.calls ++ cs }
          if cfg.maxResults ≤ s'.results.length then (s', rest)
          else runLoop cfg ao fo rest s'

/-- The rows the per-posting logic would accept, in source order,
ignoring the result cap. -/
def survivorRows (cfg : PipelineConfig) (ao fo : Oracle) (jobs : List RawJob) :
    List ResultRow :=
  jobs.filterMap (fun j =>
    match j with
    | RawJob.malformed _ => none
    | RawJob.ok p =>
        match (processJob cfg ao fo p).1 with
        | Decision.excluded _ => none
        | Decision.accepted row => some row)

/-! ## Terminal conditions and pagination (`src/app.py` lines 135-160) -/

/-- Terminal outcome of one run. -/
inductive Outcome where
  | noJobsWarning : List ExclusionRecord → Outcome
  | pageWarning : Nat → Outcome
  | shown : List ResultRow → List ExclusionRecord → Outcome
deriving DecidableEq

/-- `math.ceil(len / page_size)` for naturals (`src/app.py` line 143). -/
def totalPagesOf (n ps : Nat) : Nat := (n + ps - 1) / ps

/-- Pagination over a non-empty result list (`src/app.py` lines 143-155). -/
def displayStage (log : List ExclusionRecord) (results : List ResultRow)
    (ps pn : Nat) : Outcome :=
  let tp := totalPagesOf results.length ps
  if tp < pn then .pageWarning tp
  else .shown ((results.drop ((pn - 1) * ps)).take ps) log

/-- The whole pipeline after fetching: loop, empty-result halt
(`src/app.py` line 135), then pagination. -/
def pipelineOutcome (cfg : PipelineConfig) (ao fo : Oracle)
    (jobs : List RawJob) : Outcome :=
  let s := (runLoop cfg ao fo jobs initState).1
  if s.results.length = 0 then .noJobsWarning s.log
  else displayStage s.log s.results cfg.pageSize cfg.pageNumber

/-- The user-visible warning text of an outcome (`src/app.py` lines 136
and 145). -/
def warningText : Outcome → Option String
  | .noJobsWarning _ => some "No jobs passed the filters."
  | .pageWarning tp => some ("Only " ++ toString tp ++ " page(s) available.")
  | .shown _ _ => none

/-! ## Loop lemmas -/

/-- Each processed job contributes exactly one result row or exactly one
exclusion record; jobs left by the early break contribute neither. -/
theorem runLoop_count (cfg : PipelineConfig) (ao fo : Oracle) :
    ∀ (jobs : List RawJob) (s : LoopState),
      ((runLoop cfg ao fo jobs s).1.results.length
          + (runLoop cfg ao fo jobs s).1.log.length)
          + (runLoop cfg ao fo jobs s).2.length
        = (s.results.length + s.log.length) + jobs.length
  | [], s => by simp [runLoop]
  | RawJob.malformed e :: rest, s => by
      have ih := runLoop_count cfg ao fo rest
        { s with log := s.log ++ [("Unknown", "Unknown", "job parsing error: " ++ e)] }
      simp [runLoop] at ih ⊢
      omega
  | RawJob.ok p :: rest, s => by
      rcases hpj : processJob cfg ao fo p with ⟨d, cs⟩
      cases d with
      | excluded r =>
          have ih := runLoop_count cfg ao fo rest
            { s with log := s.log ++ [(p.company, p.title, r)], calls := s.calls ++ cs }
          simp [runLoop, hpj] at ih ⊢
          omega
      | accepted row =>
          by_cases hcap : cfg.maxResults ≤ s.results.length + 1
          · simp [runLoop, hpj, hcap]
            omega
          · have ih := runLoop_count cfg ao fo rest
              { s with results := s.results ++ [row], calls := s.calls ++ cs }
            simp [runLoop, hpj, hcap] at ih ⊢
            omega

/-- Below the cap, the loop's accepted rows are the initial rows followed
by the first `maxResults - |initial|` surviving rows in source order. -/
theorem runLoop_results_take (cfg : PipelineConfig) (ao fo : Oracle) :
    ∀ (jobs : List RawJob) (s : LoopState), s.results.length < cfg.maxResults →
      (runLoop cfg ao fo jobs s).1.results
        = s.results ++ (survivorRows cfg ao fo jobs).take (cfg.maxResults - s.results.length)
  | [], s => by simp [runLoop, survivorRows]
  | RawJob.malformed e :: rest, s => by
      intro hs
      have ih := runLoop_results_take cfg ao fo rest
        { s with log := s.log ++ [("Unknown", "Unknown", "job parsing error: " ++ e)] } hs
      simpa [runLoop, survivorRows] using ih
  | RawJob.ok p :: rest, s => by
      intro hs
      rcases hpj : processJob cfg ao fo p with ⟨d, cs⟩
      cases d with
      | excluded r =>
          have ih := runLoop_results_take cfg ao fo rest
            { s with log := s.log ++ [(p.company, p.title, r)], calls := s.calls ++ cs } hs
          simpa [runLoop, survivorRows, hpj] using ih
      | accepted row =>
          by_cases hcap : cfg.maxResults ≤ s.results.length + 1
          · have h1 : cfg.maxResults - s.results.length = 1 := by omega
            simp [runLoop, hpj, hcap, survivorRows, h1]
          · have ih := runLoop_results_take cfg ao fo rest
              { s with results := s.results ++ [row], calls := s.calls ++ cs }
              (by simp; omega)
            have h1 : cfg.maxResults - s.results.length
                = (cfg.maxResults - (s.results.length + 1)) + 1 := by omega
            simp [runLoop, hpj, hcap, survivorRows, h1] at ih ⊢
            simp [ih]

/-- Provenance of accepted rows: each row in the final state was already
present initially or was accepted by `processJob` for some fetched
posting. -/
theorem runLoop_rows_from (cfg : PipelineConfig) (ao fo : Oracle) :
    ∀ (jobs : List RawJob) (s : LoopState) (row : ResultRow),
      row ∈ (runLoop cfg ao fo jobs s).1.results →
      row ∈ s.results
        ∨ ∃ p, RawJob.ok p ∈ jobs ∧ (processJob cfg ao fo p).1 = Decision.accepted row
  | [], s, row => by
      simp [runLoop]
  | RawJob.malformed e :: rest, s, row => by
      intro h
      rcases runLoop_rows_from cfg ao fo rest _ row h with h' | ⟨p, hp, hacc⟩
      · exact Or.inl h'
      · exact Or.inr ⟨p, by simp [hp], hacc⟩
  | RawJob.ok p :: rest, s, row => by
      rcases hpj : processJob cfg ao fo p with ⟨d, cs⟩
      cases d with
      | excluded r =>
          intro h
          rw [show runLoop cfg ao fo (RawJob.ok p :: rest) s
              = runLoop cfg ao fo rest
                  { s with log := s.log ++ [(p.company, p.title, r)],
                           calls := s.calls ++ cs } by simp [runLoop, hpj]] at h
          rcases runLoop_rows_from cfg ao fo rest _ row h with h' | ⟨q, hq, hacc⟩
          · exact Or.inl h'
          · exact Or.inr ⟨q, by simp [hq], hacc⟩
      | accepted row' =>
          by_cases hcap : cfg.maxResults ≤ s.results.length + 1
          · intro h
            simp [runLoop, hpj, hcap] at h
            rcases h with h' | h'
            · exact Or.inl h'
            · exact Or.inr ⟨p, by simp, by rw [hpj, h']⟩
          · intro h
            rw [show runLoop cfg ao fo (RawJob.ok p :: rest) s
                = runLoop cfg ao fo rest
                    { s with results := s.results ++ [row'],
                             calls := s.calls ++ cs } by simp [runLoop, hpj, hcap]] at h
            rcases runLoop_rows_from cfg ao fo rest _ row h with h' | ⟨q, hq, hacc⟩
            · simp at h'
              rcases h' with h'' | h''
              · exact Or.inl h''
              · exact Or.inr ⟨p, by simp, by rw [hpj, h'']⟩
            · exact Or.inr ⟨q, by simp [hq], hacc⟩

/-- The exclusion log only grows during the loop. -/
theorem runLoop_log_mono (cfg : PipelineConfig) (ao fo : Oracle) :
    ∀ (jobs : List RawJob) (s : LoopState) (r : ExclusionRecord),
      r ∈ s.log → r ∈ (runLoop cfg ao fo jobs s).1.log
  | [], s, r => by simp [runLoop]
  | RawJob.malformed e :: rest, s, r => by
      intro h
      exact runLoop_log_mono cfg ao fo rest _ r (by simp [h])
  | RawJob.ok p :: rest, s, r => by
      rcases hpj : processJob cfg ao fo p with ⟨d, cs⟩
      cases d with
      | excluded rr =>
          intro h
          rw [show runLoop cfg ao fo (RawJob.ok p :: rest) s
              = runLoop cfg ao fo rest
                  { s with log := s.log ++ [(p.company, p.title, rr)],
                           calls := s.calls ++ cs } by simp [runLoop, hpj]]
          exact runLoop_log_mono cfg ao fo rest _ r (by simp [h])
      | accepted row' =>
          by_cases hcap : cfg.maxResults ≤ s.results.length + 1
          · intro h
            simp [runLoop, hpj, hcap]
            exact h
          · intro h
            rw [show runLoop cfg ao fo (RawJob.ok p :: rest) s
                = runLoop cfg ao fo rest
                    { s with results := s.results ++ [row'],
                             calls := s.calls ++ cs } by simp [runLoop, hpj, hcap]]
            exact runLoop_log_mono cfg ao fo rest _ r h

/-- Provenance of log records: each record in the final log was already
present initially, or logs a malformed job, or logs a posting that some
check excluded. -/
theorem runLoop_log_from (cfg : PipelineConfig) (ao fo : Oracle) :
    ∀ (jobs : List RawJob) (s : LoopState) (r : ExclusionRecord),
      r ∈ (runLoop cfg ao fo jobs s).1.log →
      r ∈ s.log
        ∨ (∃ e, RawJob.malformed e ∈ jobs
              ∧ r = ("Unknown", "Unknown", "job parsing error: " ++ e))
        ∨ (∃ p reason, RawJob.ok p ∈ jobs
              ∧ (processJob cfg ao fo p).1 = Decision.excluded reason
              ∧ r = (p.company, p.title, reason))
  | [], s, r => by simp [runLoop]
  | RawJob.malformed e :: rest, s, r => by
      intro h
      rcases runLoop_log_from cfg ao fo rest _ r h with h' | ⟨e', he', hr⟩ | ⟨q, rr, hq, hex, hr⟩
      · simp at h'
        rcases h' with h'' | h''
        · exact Or.inl h''
        · exact Or.inr (Or.inl ⟨e, by simp, h''⟩)
      · exact Or.inr (Or.inl ⟨e', by simp [he'], hr⟩)
      · exact Or.inr (Or.inr ⟨q, rr, by simp [hq], hex, hr⟩)
  | RawJob.ok p :: rest, s, r => by
      rcases hpj : processJob cfg ao fo p with ⟨d, cs⟩
      cases d with
      | excluded rr =>
          intro h
          rw [show runLoop cfg ao fo (RawJob.ok p :: rest) s
              = runLoop cfg ao fo rest
                  { s with log := s.log ++ [(p.company, p.title, rr)],
                           calls := s.calls ++ cs } by simp [runLoop, hpj]] at h
          rcases runLoop_log_from cfg ao fo rest _ r h with h' | ⟨e', he', hr⟩ | ⟨q, r', hq, hex, hr⟩
          · simp at h'
            rcases h' with h'' | h''
            · exact Or.inl h''
            · exact Or.inr (Or.inr ⟨p, rr, by simp, by rw [hpj], h''⟩)
          · exact Or.inr (Or.inl ⟨e', by simp [he'], hr⟩)
          · exact Or.inr (Or.inr ⟨q, r', by simp [hq], hex, hr⟩)
      | accepted row' =>
          by_cases hcap : cfg.maxResults ≤ s.results.length + 1
          · intro h
            simp [runLoop, hpj, hcap] at h
            exact Or.inl h
          · intro h
            rw [show runLoop cfg ao fo (RawJob.ok p :: rest) s
                = runLoop cfg ao fo rest
                    { s with results := s.results ++ [row'],
                             calls := s.calls ++ cs } by simp [runLoop, hpj, hcap]] at h
            rcases runLoop_log_from cfg ao fo rest _ r h with h' | ⟨e', he', hr⟩ | ⟨q, r', hq, hex, hr⟩
            · exact Or.inl h'
            · exact Or.inr (Or.inl ⟨e', by simp [he'], hr⟩)
            · exact Or.inr (Or.inr ⟨q, r', by simp [hq], hex, hr⟩)

/-- A hostile posting among the fetched jobs is either logged with the
hostility reason or is among the jobs the early break left unprocessed. -/
theorem runLoop_hostile_logged (cfg : PipelineConfig) (ao fo : Oracle) :
    ∀ (jobs : List RawJob) (s : LoopState) (p : Posting),
      RawJob.ok p ∈ jobs → hostileOf p = true →
      (p.company, p.title, "contains \x27no recruiters\x27 language")
          ∈ (runLoop cfg ao fo jobs s).1.log
        ∨ RawJob.ok p ∈ (runLoop cfg ao fo jobs s).2
  | [], s, p => by simp
  | RawJob.malformed e :: rest, s, p => by
      intro hmem hh
      simp at hmem
      exact runLoop_hostile_logged cfg ao fo rest _ p hmem hh
  | RawJob.ok q :: rest, s, p => by
      intro hmem hh
      rcases hpj : processJob cfg ao fo q with ⟨d, cs⟩
      cases d with
      | excluded rr =>
          rw [show runLoop cfg ao fo (RawJob.ok q :: rest) s
              = runLoop cfg ao fo rest
                  { s with log := s.log ++ [(q.company, q.title, rr)],
                           calls := s.calls ++ cs } by simp [runLoop, hpj]]
          rcases (by simpa using hmem : p = q ∨ RawJob.ok p ∈ rest)
            with heq | hmem'
          · subst heq
            have hrr : rr = "contains \x27no recruiters\x27 language" := by
              have := hpj
              simp [processJob, hh] at this
              exact this.1.symm
            subst hrr
            exact Or.inl (runLoop_log_mono cfg ao fo rest _ _ (by simp))
          · exact runLoop_hostile_logged cfg ao fo rest _ p hmem' hh
      | accepted row' =>
          rcases (by simpa using hmem : p = q ∨ RawJob.ok p ∈ rest)
            with heq | hmem'
          · subst heq
            have : False := by simp [processJob, hh] at hpj
            exact this.elim
          · by_cases hcap : cfg.maxResults ≤ s.results.length + 1
            · rw [show runLoop cfg ao fo (RawJob.ok q :: rest) s
                  = ({ s with results := s.results ++ [row'], calls := s.calls ++ cs },
                     rest) by simp [runLoop, hpj, hcap]]
              exact Or.inr hmem'
            · rw [show runLoop cfg ao fo (RawJob.ok q :: rest) s
                  = runLoop cfg ao fo rest
                      { s with results := s.results ++ [row'],
                               calls := s.calls ++ cs } by simp [runLoop, hpj, hcap]]
              exact runLoop_hostile_logged cfg ao fo rest _ p hmem' hh

/-- Once the cap has been hit strictly inside `jobs`, appending further
jobs changes nothing: same state (rows, log, call trace), and the
appended jobs are returned unprocessed. -/
theorem runLoop_append_cap (cfg : PipelineConfig) (ao fo : Oracle) :
    ∀ (jobs tail : List RawJob) (s : LoopState),
      s.results.length < cfg.maxResults →
      cfg.maxResults ≤ (runLoop cfg ao fo jobs s).1.results.length →
      runLoop cfg ao fo (jobs ++ tail) s
        = ((runLoop cfg ao fo jobs s).1, (runLoop cfg ao fo jobs s).2 ++ tail)
  | [], tail, s => by
      intro hs hcap
      simp [runLoop] at hcap
      omega
  | RawJob.malformed e :: rest, tail, s => by
      intro hs hcap
      have ih := runLoop_append_cap cfg ao fo rest tail
        { s with log := s.log ++ [("Unknown", "Unknown", "job parsing error: " ++ e)] }
        hs (by simpa [runLoop] using hcap)
      simpa [runLoop] using ih
  | RawJob.ok p :: rest, tail, s => by
      intro hs hcap
      rcases hpj : processJob cfg ao fo p with ⟨d, cs⟩
      cases d with
      | excluded rr =>
          have ih := runLoop_append_cap cfg ao fo rest tail
            { s with log := s.log ++ [(p.company, p.title, rr)], calls := s.calls ++ cs }
            hs (by simpa [runLoop, hpj] using hcap)
          simpa [runLoop, hpj] using ih
      | accepted row' =>
          by_cases hcap2 : cfg.maxResults ≤ s.results.length + 1
          · simp [runLoop, hpj, hcap2]
          · have ih := runLoop_append_cap cfg ao fo rest tail
              { s with results := s.results ++ [row'], calls := s.calls ++ cs }
              (by simp; omega) (by simpa [runLoop, hpj, hcap2] using hcap)
            simpa [runLoop, hpj, hcap2] using ih

/-! ## Per-posting lemmas -/

/-- The agency branch can only emit its two reason strings. -/
theorem agencyExclusion_reason (ao : Oracle) (c : String) (r : String)
    (h : agencyExclusion ao c = some r) :
    r = "GPT says \x27yes\x27 to agency"
      ∨ r = "fallback: company name matched agency keyword" := by
  unfold agencyExclusion at h
  cases h4 : (agency_answer ao c == "yes")
  · simp [h4] at h
    exact Or.inr h.2.2.symm
  · simp [h4] at h
    exact Or.inl h.symm

/-- Whether a posting is excluded (and with which reason) does not depend
on the fit-analysis oracle. -/
theorem processJob_excluded_fo (cfg : PipelineConfig) (ao fo fo' : Oracle)
    (p : Posting) (r : String) :
    (processJob cfg ao fo p).1 = Decision.excluded r
      ↔ (processJob cfg ao fo' p).1 = Decision.excluded r := by
  unfold processJob postKeywordStage
  by_cases h1 : hostileOf p
  · simp [h1]
  · by_cases h2 : relevantOf cfg.jobQuery p
    · cases hae : (if cfg.enableAgencyCheck then agencyExclusion ao p.company else none)
        with
      | none => simp [h1, h2, hae]
      | some rr => simp [h1, h2, hae]
    · simp [h1, h2]

/-- An accepted row is exactly the row built from the posting and its
fit commentary. -/
theorem processJob_accepted_analysis (cfg : PipelineConfig) (ao fo : Oracle)
    (p : Posting) (row : ResultRow)
    (h : (processJob cfg ao fo p).1 = Decision.accepted row) :
    row = mkRow p (fitAnalysis cfg fo p.description) := by
  unfold processJob postKeywordStage at h
  by_cases h1 : hostileOf p
  · simp [h1] at h
  · by_cases h2 : relevantOf cfg.jobQuery p
    · cases hae : (if cfg.enableAgencyCheck then agencyExclusion ao p.company else none)
        with
      | none =>
          simp [h1, h2, hae] at h
          exact h.symm
      | some rr => simp [h1, h2, hae] at h
    · simp [h1, h2] at h

/-- The number of surviving postings does not depend on the fit-analysis
oracle. -/
theorem survivorRows_length_fo (cfg : PipelineConfig) (ao fo fo' : Oracle) :
    ∀ jobs, (survivorRows cfg ao fo jobs).length = (survivorRows cfg ao fo' jobs).length
  | [] => by simp [survivorRows]
  | RawJob.malformed e :: rest => by
      simpa [survivorRows] using survivorRows_length_fo cfg ao fo fo' rest
  | RawJob.ok p :: rest => by
      have ih := survivorRows_length_fo cfg ao fo fo' rest
      rcases hd : (processJob cfg ao fo p).1 with r | row
      · have hd' : (processJob cfg ao fo' p).1 = Decision.excluded r :=
          (processJob_excluded_fo cfg ao fo fo' p r).1 hd
        simpa [survivorRows, hd, hd'] using ih
      · rcases hd' : (processJob cfg ao fo' p).1 with r' | row'
        · exact absurd ((processJob_excluded_fo cfg ao fo fo' p r').2 hd')
            (by simp [hd])
        · simpa [survivorRows, hd, hd'] using ih

/-- With an always-failing fit oracle, the commentary is the error marker
prefix followed by the error message. -/
theorem fitAnalysis_error (cfg : PipelineConfig) (m desc : String)
    (hf : cfg.enableFitCheck = true) :
    fitAnalysis cfg (fun _ => Except.error m) desc = "GPT error: " ++ m := by
  simp [fitAnalysis, hf]

/-! ## Pagination lemmas -/

/-- `totalPagesOf` is large enough: `n` items fit in that many pages. -/
theorem totalPages_le_mul (n ps : Nat) (hps : 1 ≤ ps) :
    n ≤ totalPagesOf n ps * ps := by
  unfold totalPagesOf
  have h2 : n + ps - 1 < ((n + ps - 1) / ps + 1) * ps :=
    (Nat.div_lt_iff_lt_mul (show 0 < ps by omega)).1 (Nat.lt_succ_self _)
  rw [Nat.add_mul, Nat.one_mul] at h2
  omega

/-- `totalPagesOf` is the least page count that fits all items: it is the
ceiling of `n / ps`. -/
theorem totalPages_min (n ps k : Nat) (hps : 1 ≤ ps) (h : n ≤ k * ps) :
    totalPagesOf n ps ≤ k := by
  unfold totalPagesOf
  have h2 : n + ps - 1 < (k + 1) * ps := by
    rw [Nat.add_mul, Nat.one_mul]
    omega
  have h3 := (Nat.div_lt_iff_lt_mul (show 0 < ps by omega)).2 h2
  omega

/-- The positional slice `results[(pn-1)*ps : pn*ps]` equals drop-then-take
with width `ps`. -/
theorem slice_eq_drop_take {α : Type} (l : List α) (ps pn : Nat) (hpn : 1 ≤ pn) :
    (l.take (pn * ps)).drop ((pn - 1) * ps) = (l.drop ((pn - 1) * ps)).take ps := by
  have hm : (pn - 1) * ps + ps = pn * ps := by
    have h1 : pn - 1 + 1 = pn := by omega
    calc (pn - 1) * ps + ps = ((pn - 1) + 1) * ps := by ring
    _ = pn * ps := by rw [h1]
  rw [List.take_drop, hm]

/-! ## Concrete fixtures -/

/-- A well-formed posting that passes every deterministic filter for the
keyword "project manager". -/
def pGood : Posting :=
  ⟨"Senior Project Manager", "Acme Robotics", "build robots in Phoenix",
   "http://example.com/1"⟩

/-- A posting whose hostile phrase spans the title/description boundary. -/
def pHostile : Posting :=
  ⟨"Project Manager no", "BuildCo", "recruiters need not apply", "#"⟩

/-- A run with both LLM toggles off, result limit 10 (the form minimum),
page size 10, page 1. -/
def cfgPlain : PipelineConfig := ⟨"project manager", 10, 10, 1, false, false⟩

/-- An oracle whose every call fails. -/
def oracleDown : Oracle := fun _ => Except.error "down"

/-! ## C1 — hostility filtering -/

/-- C1 as stated is false: with the result cap already reached (ten
accepted postings, limit 10), an eleventh, hostile posting is never
evaluated, so no exclusion record with the hostility reason is appended
(the log stays empty), although the claim demands one for every fetched
hostile posting. -/
theorem C1_counterexample :
    hostileOf pHostile = true
  ∧ (runLoop cfgPlain oracleDown oracleDown
        (List.replicate 10 (RawJob.ok pGood) ++ [RawJob.ok pHostile]) initState).1.log = []
  ∧ (runLoop cfgPlain oracleDown oracleDown
        (List.replicate 10 (RawJob.ok pGood) ++ [RawJob.ok pHostile])
        initState).1.results.length = 10 := by
  exact ⟨by decide, by decide, by decide⟩

/-- C1 (amended): a fetched posting whose lowercased title+description
contains a hostile phrase never contributes a result row (every final row
comes from a posting that passed the hostility check), and unless the
posting is among the jobs left unprocessed by the result-cap break, an
exclusion record with the hostility reason is appended to the log. -/
theorem C1_hostility (cfg : PipelineConfig) (ao fo : Oracle) (jobs : List RawJob)
    (p : Posting) (hmem : RawJob.ok p ∈ jobs) (hhost : hostileOf p = true) :
    (∀ row ∈ (runLoop cfg ao fo jobs initState).1.results,
        ∃ q, RawJob.ok q ∈ jobs ∧ hostileOf q = false
          ∧ (processJob cfg ao fo q).1 = Decision.accepted row)
  ∧ ((p.company, p.title, "contains \x27no recruiters\x27 language")
        ∈ (runLoop cfg ao fo jobs initState).1.log
      ∨ RawJob.ok p ∈ (runLoop cfg ao fo jobs initState).2) := by
  constructor
  · intro row hrow
    rcases runLoop_rows_from cfg ao fo jobs initState row hrow with h | ⟨q, hq, hacc⟩
    · simp [initState] at h
    · refine ⟨q, hq, ?_, hacc⟩
      cases hdec : hostileOf q
      · rfl
      · exact absurd hacc (by simp [processJob, hdec])
  · exact runLoop_hostile_logged cfg ao fo jobs initState p hmem hhost

/-- Witness for C1 (amended) at a concrete hostile posting: with a single
fetched hostile posting the hostility record is in the log. -/
theorem C1_witness :
    ((pHostile.company, pHostile.title, "contains \x27no recruiters\x27 language")
        ∈ (runLoop cfgPlain oracleDown oracleDown [RawJob.ok pHostile] initState).1.log
      ∨ RawJob.ok pHostile
        ∈ (runLoop cfgPlain oracleDown oracleDown [RawJob.ok pHostile] initState).2) :=
  (C1_hostility cfgPlain oracleDown oracleDown [RawJob.ok pHostile] pHostile
    (by decide) (by decide)).2

/-! ## C2 — result cap and early termination -/

/-- C2: the accepted rows are exactly the first `maxResults` surviving
rows in source order, their number never exceeds `maxResults` (the form
guarantees `maxResults ≥ 10 ≥ 1`), and once the cap is reached the run is
insensitive to any appended later postings: state (rows, log, and the
trace of filter/classifier oracle calls) is unchanged and the appended
jobs are returned unprocessed — early termination, not post-hoc
truncation. -/
theorem C2_resultCap (cfg : PipelineConfig) (ao fo : Oracle)
    (jobs tail : List RawJob) (hmax : 1 ≤ cfg.maxResults) :
    (runLoop cfg ao fo jobs initState).1.results
        = (survivorRows cfg ao fo jobs).take cfg.maxResults
  ∧ (runLoop cfg ao fo jobs initState).1.results.length ≤ cfg.maxResults
  ∧ (cfg.maxResults ≤ (runLoop cfg ao fo jobs initState).1.results.length →
        runLoop cfg ao fo (jobs ++ tail) initState
          = ((runLoop cfg ao fo jobs initState).1,
             (runLoop cfg ao fo jobs initState).2 ++ tail)) := by
  have h1 := runLoop_results_take cfg ao fo jobs initState
    (by simpa [initState] using hmax)
  rw [show initState.results = ([] : List ResultRow) from rfl] at h1
  simp only [List.nil_append, List.length_nil, Nat.sub_zero] at h1
  refine ⟨h1, ?_, ?_⟩
  · rw [h1, List.length_take]
    exact inf_le_left
  · intro hcap
    exact runLoop_append_cap cfg ao fo jobs tail initState
      (by simpa [initState] using hmax) hcap

/-- Witness for C2 at a concrete run: eleven surviving postings, limit 10
— appending a twelfth job after the cap leaves the whole loop state
untouched and returns it unprocessed. -/
theorem C2_witness :
    runLoop cfgPlain oracleDown oracleDown
        (List.replicate 11 (RawJob.ok pGood) ++ [RawJob.ok pHostile]) initState
      = ((runLoop cfgPlain oracleDown oracleDown
            (List.replicate 11 (RawJob.ok pGood)) initState).1,
         (runLoop cfgPlain oracleDown oracleDown
            (List.replicate 11 (RawJob.ok pGood)) initState).2
           ++ [RawJob.ok pHostile]) :=
  (C2_resultCap cfgPlain oracleDown oracleDown
    (List.replicate 11 (RawJob.ok pGood)) [RawJob.ok pHostile]
    (by decide)).2.2 (by decide)

/-! ## Agency-branch value lemmas -/

/-- Verdict "yes" excludes. -/
theorem agencyExclusion_yes (ao : Oracle) (c : String)
    (h : agency_answer ao c = "yes") :
    agencyExclusion ao c = some "GPT says \x27yes\x27 to agency" := by
  simp [agencyExclusion, h]

/-- Verdict "no" passes without consulting the fallback check. -/
theorem agencyExclusion_no (ao : Oracle) (c : String)
    (h : agency_answer ao c = "no") :
    agencyExclusion ao c = none := by
  simp [agencyExclusion, h]

/-- Any other verdict routes to the fallback lexical check. -/
theorem agencyExclusion_unknown (ao : Oracle) (c : String)
    (h1 : agency_answer ao c ≠ "yes") (h2 : agency_answer ao c ≠ "no") :
    agencyExclusion ao c
      = (if fallbackMatch c
         then some "fallback: company name matched agency keyword"
         else none) := by
  simp [agencyExclusion, h1, h2]

/-- The post-keyword stage only excludes with one of the two agency
reasons. -/
theorem postKeywordStage_reason (cfg : PipelineConfig) (ao fo : Oracle)
    (p : Posting) (r : String)
    (h : (postKeywordStage cfg ao fo p).1 = Decision.excluded r) :
    r = "GPT says \x27yes\x27 to agency"
      ∨ r = "fallback: company name matched agency keyword" := by
  unfold postKeywordStage at h
  cases hA : cfg.enableAgencyCheck
  · simp [hA] at h
  · rcases hae : agencyExclusion ao p.company with _ | rr
    · simp [hA, hae] at h
    · simp [hA, hae] at h
      exact h ▸ agencyExclusion_reason ao p.company rr hae

/-! ## More fixtures -/

/-- A run with the agency check enabled and the fit check disabled. -/
def cfgAgency : PipelineConfig := ⟨"project manager", 10, 10, 1, true, false⟩

/-- A classifier oracle that answers with a decorated "Yes". -/
def oracleYes : Oracle := fun _ => Except.ok " Yes "

/-- A company containing "personnel" — one of the ten terms C4 claims,
but not one of the six the code uses. -/
def pPersonnel : Posting :=
  ⟨"Senior Project Manager", "Acme Personnel", "d", "#"⟩

/-- The spec's own fallback example company. -/
def pStaffing : Posting :=
  ⟨"Senior Project Manager", "Acme Staffing Solutions", "d", "#"⟩

/-! ## C3 — classifier verdict mapping -/

/-- C3: with the agency check enabled, for a posting past the keyword
filters the trimmed, lowercased classifier response is mapped so that
exactly "yes" excludes with the agency reason; exactly "no" passes with
the fallback never consulted (the acceptance holds for every company
name); and any other response — or a failed call — routes the decision to
the fallback lexical check. -/
theorem C3_verdictMapping (cfg : PipelineConfig) (ao fo : Oracle) (p : Posting)
    (hA : cfg.enableAgencyCheck = true)
    (hh : hostileOf p = false) (hr : relevantOf cfg.jobQuery p = true) :
    (∀ s, ao p.company = Except.ok s → lowerStr (trimStr s) = "yes" →
        (processJob cfg ao fo p).1
          = Decision.excluded "GPT says \x27yes\x27 to agency")
  ∧ (∀ s, ao p.company = Except.ok s → lowerStr (trimStr s) = "no" →
        (processJob cfg ao fo p).1
          = Decision.accepted (mkRow p (fitAnalysis cfg fo p.description)))
  ∧ (∀ s, ao p.company = Except.ok s →
        lowerStr (trimStr s) ≠ "yes" → lowerStr (trimStr s) ≠ "no" →
        (processJob cfg ao fo p).1
          = (if fallbackMatch p.company
             then Decision.excluded "fallback: company name matched agency keyword"
             else Decision.accepted (mkRow p (fitAnalysis cfg fo p.description))))
  ∧ (∀ m, ao p.company = Except.error m →
        (processJob cfg ao fo p).1
          = (if fallbackMatch p.company
             then Decision.excluded "fallback: company name matched agency keyword"
             else Decision.accepted (mkRow p (fitAnalysis cfg fo p.description)))) := by
  refine ⟨?_, ?_, ?_, ?_⟩
  · intro s hao hyes
    have ha : agency_answer ao p.company = "yes" := by
      simp [agency_answer, hao, hyes]
    simp [processJob, hh, hr, postKeywordStage, hA, agencyExclusion_yes ao p.company ha]
  · intro s hao hno
    have ha : agency_answer ao p.company = "no" := by
      simp [agency_answer, hao, hno]
    simp [processJob, hh, hr, postKeywordStage, hA, agencyExclusion_no ao p.company ha]
  · intro s hao h1 h2
    have ha : agency_answer ao p.company = lowerStr (trimStr s) := by
      simp [agency_answer, hao]
    have he := agencyExclusion_unknown ao p.company (by rw [ha]; exact h1) (by rw [ha]; exact h2)
    by_cases hf : fallbackMatch p.company
    · simp [processJob, hh, hr, postKeywordStage, hA, he, hf]
    · simp [processJob, hh, hr, postKeywordStage, hA, he, hf]
  · intro m hao
    have ha : agency_answer ao p.company = "error" := by
      simp [agency_answer, hao]
    have he := agencyExclusion_unknown ao p.company (by rw [ha]; decide) (by rw [ha]; decide)
    by_cases hf : fallbackMatch p.company
    · simp [processJob, hh, hr, postKeywordStage, hA, he, hf]
    · simp [processJob, hh, hr, postKeywordStage, hA, he, hf]

/-- Witness for C3: a decorated "Yes" response (trimming and lowercasing
to exactly "yes") excludes the concrete posting with the agency reason. -/
theorem C3_witness :
    (processJob cfgAgency oracleYes oracleDown pGood).1
      = Decision.excluded "GPT says \x27yes\x27 to agency" :=
  (C3_verdictMapping cfgAgency oracleYes oracleDown pGood rfl (by decide) (by decide)).1
    " Yes " rfl (by decide)

/-! ## C4 — fallback lexical check -/

/-- Modelled from the spec wording of C4: the ten-term fallback list the
claim asserts.  The code (`src/app.py` line 57, `fallback_terms`) carries
only the first six terms. -/
def specFallbackTermsTen : List String :=
  ["staffing", "recruiting", "recruitment", "talent", "consulting", "agency",
   "personnel", "placement", "headhunter", "search firm"]

/-- The fallback check as C4 words it, over the ten-term list. -/
def specFallbackMatchTen (company : String) : Bool :=
  specFallbackTermsTen.any (fun t => containsSub (lowerStr company) t)

/-- C4 as stated is false: with verdict Unknown (failing classifier
call), company "Acme Personnel" contains the claimed term "personnel",
yet the code's six-term list does not match and the posting is passed,
not excluded. -/
theorem C4_counterexample :
    specFallbackMatchTen "Acme Personnel" = true
  ∧ fallbackMatch "Acme Personnel" = false
  ∧ (processJob cfgAgency oracleDown oracleDown pPersonnel).1
      = Decision.accepted (mkRow pPersonnel "GPT recruiter-fit check skipped") := by
  exact ⟨by decide, by decide, by decide⟩

/-- C4 (amended): when the verdict is Unknown, the fallback lexical check
excludes the posting if and only if the lowercased company name contains
one of the SIX terms "staffing", "recruiting", "recruitment", "talent",
"consulting", "agency"; with no match the posting is treated as passed. -/
theorem C4_fallbackSixTerms (cfg : PipelineConfig) (ao fo : Oracle) (p : Posting)
    (hA : cfg.enableAgencyCheck = true)
    (hh : hostileOf p = false) (hr : relevantOf cfg.jobQuery p = true)
    (h1 : agency_answer ao p.company ≠ "yes")
    (h2 : agency_answer ao p.company ≠ "no") :
    ((processJob cfg ao fo p).1
        = Decision.excluded "fallback: company name matched agency keyword"
      ↔ fallback_terms.any (fun t => containsSub (lowerStr p.company) t) = true)
  ∧ (fallbackMatch p.company = false →
      (processJob cfg ao fo p).1
        = Decision.accepted (mkRow p (fitAnalysis cfg fo p.description))) := by
  have he := agencyExclusion_unknown ao p.company h1 h2
  have hfb : fallbackMatch p.company
      = fallback_terms.any (fun t => containsSub (lowerStr p.company) t) := rfl
  constructor
  · by_cases hf : fallbackMatch p.company
    · simp [processJob, hh, hr, postKeywordStage, hA, he, hf, ← hfb]
    · simp [processJob, hh, hr, postKeywordStage, hA, he, hf, ← hfb]
  · intro hf
    simp [processJob, hh, hr, postKeywordStage, hA, he, hf]

/-- Witness for C4 (amended): the spec's example company
"Acme Staffing Solutions" with a failing classifier call is excluded via
the fallback. -/
theorem C4_witness :
    (processJob cfgAgency oracleDown oracleDown pStaffing).1
      = Decision.excluded "fallback: company name matched agency keyword" :=
  ((C4_fallbackSixTerms cfgAgency oracleDown oracleDown pStaffing rfl (by decide)
      (by decide) (by decide) (by decide)).1).2 (by decide)

/-! ## C5 — keyword relevance -/

/-- C5: the relevance check tokenizes the lowercased keyword phrase on
whitespace and excludes a (non-hostile) posting with reason "title does
not match keyword" exactly when no token occurs as a substring of the
lowercased title (OR across tokens); when some token matches, processing
continues to the agency/fit stages. -/
theorem C5_relevance (cfg : PipelineConfig) (ao fo : Oracle) (p : Posting)
    (hh : hostileOf p = false) :
    ((processJob cfg ao fo p).1 = Decision.excluded "title does not match keyword"
      ↔ ¬ ∃ w ∈ keyword_words cfg.jobQuery, containsSub (lowerStr p.title) w = true)
  ∧ (relevantOf cfg.jobQuery p = true →
        (processJob cfg ao fo p).1 = (postKeywordStage cfg ao fo p).1) := by
  have hrel : relevantOf cfg.jobQuery p = true
      ↔ ∃ w ∈ keyword_words cfg.jobQuery, containsSub (lowerStr p.title) w = true := by
    simp [relevantOf, List.any_eq_true]
  constructor
  · constructor
    · intro hex hcontra
      have hr : relevantOf cfg.jobQuery p = true := hrel.2 hcontra
      rw [show (processJob cfg ao fo p).1 = (postKeywordStage cfg ao fo p).1
          by simp [processJob, hh, hr]] at hex
      rcases postKeywordStage_reason cfg ao fo p _ hex with h | h
      · exact absurd h (by decide)
      · exact absurd h (by decide)
    · intro hne
      have hr : relevantOf cfg.jobQuery p = false := by
        cases hd : relevantOf cfg.jobQuery p
        · rfl
        · exact absurd (hrel.1 hd) hne
      simp [processJob, hh, hr]
  · intro hr
    simp [processJob, hh, hr]

/-- A title matching only the token "senior" of the phrase. -/
def pSenior : Posting := ⟨"Senior Developer", "X Co", "", "#"⟩

/-- A three-token keyword phrase for the OR-semantics example. -/
def cfgSenior : PipelineConfig := ⟨"senior project manager", 10, 10, 1, false, false⟩

/-- Witness for C5 at the spec's OR-semantics example: keyword "senior
project manager" against title "Senior Developer". -/
theorem C5_witness :
    ((processJob cfgSenior oracleDown oracleDown pSenior).1
        = Decision.excluded "title does not match keyword"
      ↔ ¬ ∃ w ∈ keyword_words cfgSenior.jobQuery,
            containsSub (lowerStr pSenior.title) w = true) :=
  (C5_relevance cfgSenior oracleDown oracleDown pSenior (by decide)).1

/-! ## C6 — pagination -/

/-- C6: pagination over a non-empty result list: `totalPagesOf` is the
ceiling of `len / page_size` (the least page count fitting every row); a
page number beyond it yields the out-of-range signal without error;
otherwise exactly the positional slice
`results[(pn-1)*ps : pn*ps]` is shown. -/
theorem C6_pagination (log : List ExclusionRecord) (results : List ResultRow)
    (ps pn : Nat) (hres : results ≠ []) (hps : 1 ≤ ps) (hpn : 1 ≤ pn) :
    (results.length ≤ totalPagesOf results.length ps * ps
      ∧ ∀ k, results.length ≤ k * ps → totalPagesOf results.length ps ≤ k)
  ∧ (totalPagesOf results.length ps < pn →
        displayStage log results ps pn
          = Outcome.pageWarning (totalPagesOf results.length ps))
  ∧ (pn ≤ totalPagesOf results.length ps →
        displayStage log results ps pn
          = Outcome.shown ((results.take (pn * ps)).drop ((pn - 1) * ps)) log) := by
  refine ⟨⟨totalPages_le_mul _ _ hps, fun k hk => totalPages_min _ _ _ hps hk⟩, ?_, ?_⟩
  · intro h
    simp [displayStage, h]
  · intro h
    have hnot : ¬ (totalPagesOf results.length ps < pn) := by omega
    simp [displayStage, hnot, slice_eq_drop_take results ps pn hpn]

/-- Twenty-three identical result rows, for the pagination example. -/
def rows23 : List ResultRow := List.replicate 23 (mkRow pGood "a")

/-- Witness for C6 at the spec's example: 23 results, page size 10 gives
3 pages; page 4 is out of range; page 3 shows the slice [20:30], which
has 3 rows. -/
theorem C6_witness :
    displayStage [] rows23 10 4 = Outcome.pageWarning 3
  ∧ displayStage [] rows23 10 3 = Outcome.shown ((rows23.take 30).drop 20) []
  ∧ ((rows23.take 30).drop 20).length = 3 := by
  refine ⟨(C6_pagination [] rows23 10 4 (by decide) (by decide) (by decide)).2.1
            (by decide),
          (C6_pagination [] rows23 10 3 (by decide) (by decide) (by decide)).2.2
            (by decide),
          by decide⟩

/-! ## C7 — fit-analysis failure handling -/

/-- A run with the agency check disabled and the fit check enabled. -/
def cfgFit : PipelineConfig := ⟨"project manager", 10, 10, 1, false, true⟩

/-- C7 as stated is false: on upstream failure the commentary is not one
literal fixed string — it embeds the error message, so two different
failures yield two different commentaries (both postings are still kept,
with rows produced). -/
theorem C7_counterexample :
    (processJob cfgFit oracleDown (fun _ => Except.error "timeout") pGood).1
      = Decision.accepted (mkRow pGood "GPT error: timeout")
  ∧ (processJob cfgFit oracleDown (fun _ => Except.error "rate limit") pGood).1
      = Decision.accepted (mkRow pGood "GPT error: rate limit")
  ∧ ("GPT error: timeout" : String) ≠ "GPT error: rate limit" := by
  exact ⟨by decide, by decide, by decide⟩

/-- C7 (amended): a fit-analysis failure never removes a posting: any
posting that survives the keyword filters and the agency check yields an
accepted row for every fit oracle; the commentary is the trimmed response
on success, the marker prefix "GPT error: " followed by the error message
on failure, and the fixed placeholder when disabled; with an
always-failing analyzer the row count still equals the (capped) number of
postings surviving classification under any analyzer, every commentary
being the error marker. -/
theorem C7_fitFailureKeepsPosting (cfg : PipelineConfig) (ao : Oracle) :
    (∀ (fo : Oracle) (p : Posting),
        hostileOf p = false → relevantOf cfg.jobQuery p = true →
        (if cfg.enableAgencyCheck then agencyExclusion ao p.company else none) = none →
        (processJob cfg ao fo p).1
          = Decision.accepted (mkRow p (fitAnalysis cfg fo p.description)))
  ∧ (∀ (fo : Oracle) (desc s : String), cfg.enableFitCheck = true →
        fo desc = Except.ok s → fitAnalysis cfg fo desc = trimStr s)
  ∧ (∀ (fo : Oracle) (desc m : String), cfg.enableFitCheck = true →
        fo desc = Except.error m → fitAnalysis cfg fo desc = "GPT error: " ++ m)
  ∧ (∀ (fo : Oracle) (desc : String), cfg.enableFitCheck = false →
        fitAnalysis cfg fo desc = "GPT recruiter-fit check skipped")
  ∧ (∀ (jobs : List RawJob) (fo' : Oracle) (m : String), 1 ≤ cfg.maxResults →
        (runLoop cfg ao (fun _ => Except.error m) jobs initState).1.results.length
          = min cfg.maxResults (survivorRows cfg ao fo' jobs).length)
  ∧ (∀ (jobs : List RawJob) (m : String) (row : ResultRow),
        cfg.enableFitCheck = true →
        row ∈ (runLoop cfg ao (fun _ => Except.error m) jobs initState).1.results →
        row.aiAnalysis = "GPT error: " ++ m) := by
  refine ⟨?_, ?_, ?_, ?_, ?_, ?_⟩
  · intro fo p hh hr hae
    simp [processJob, hh, hr, postKeywordStage, hae]
  · intro fo desc s hf hok
    simp [fitAnalysis, hf, hok]
  · intro fo desc m hf herr
    simp [fitAnalysis, hf, herr]
  · intro fo desc hf
    simp [fitAnalysis, hf]
  · intro jobs fo' m hmax
    have h1 := runLoop_results_take cfg ao (fun _ => Except.error m) jobs initState
      (by simpa [initState] using hmax)
    rw [show initState.results = ([] : List ResultRow) from rfl] at h1
    simp only [List.nil_append, List.length_nil, Nat.sub_zero] at h1
    rw [h1, List.length_take,
        survivorRows_length_fo cfg ao (fun _ => Except.error m) fo' jobs]
  · intro jobs m row hf hrow
    rcases runLoop_rows_from cfg ao (fun _ => Except.error m) jobs initState row hrow
      with h | ⟨p, hp, hacc⟩
    · simp [initState] at h
    · rw [processJob_accepted_analysis cfg ao (fun _ => Except.error m) p row hacc]
      simp [mkRow, fitAnalysis_error cfg m p.description hf]

/-- Witness for C7 at a concrete run: three postings, an always-failing
analyzer — the row count equals the survivor count under a healthy
analyzer. -/
theorem C7_witness :
    (runLoop cfgFit oracleDown (fun _ => Except.error "down")
        (List.replicate 3 (RawJob.ok pGood)) initState).1.results.length
      = min cfgFit.maxResults
          (survivorRows cfgFit oracleDown (fun _ => Except.ok "Looks open")
            (List.replicate 3 (RawJob.ok pGood))).length :=
  (C7_fitFailureKeepsPosting cfgFit oracleDown).2.2.2.2.1
    (List.replicate 3 (RawJob.ok pGood)) (fun _ => Except.ok "Looks open") "down"
    (by decide)

/-! ## C8 — terminal conditions -/

/-- C8 as stated is false: the code does not distinguish "no postings
fetched" from "postings fetched but zero survive filtering" — both halt
with the identical "No jobs passed the filters." condition and warning
text, not two distinct conditions. -/
theorem C8_counterexample :
    pipelineOutcome cfgPlain oracleDown oracleDown [] = Outcome.noJobsWarning []
  ∧ pipelineOutcome cfgPlain oracleDown oracleDown [RawJob.ok pHostile]
      = Outcome.noJobsWarning
          [(pHostile.company, pHostile.title, "contains \x27no recruiters\x27 language")]
  ∧ warningText (pipelineOutcome cfgPlain oracleDown oracleDown [])
      = warningText (pipelineOutcome cfgPlain oracleDown oracleDown [RawJob.ok pHostile]) := by
  exact ⟨by decide, by decide, by decide⟩

/-- C8 (amended): when zero postings survive filtering — whether because
none were fetched or because every fetched posting was excluded — the
pipeline halts cleanly with the single "No jobs passed the filters."
condition, the exclusion log attached; otherwise it proceeds to
pagination. -/
theorem C8_terminalConditions (cfg : PipelineConfig) (ao fo : Oracle)
    (jobs : List RawJob) (hmax : 1 ≤ cfg.maxResults) :
    (survivorRows cfg ao fo jobs = [] →
        pipelineOutcome cfg ao fo jobs
          = Outcome.noJobsWarning (runLoop cfg ao fo jobs initState).1.log)
  ∧ (survivorRows cfg ao fo jobs ≠ [] →
        (runLoop cfg ao fo jobs initState).1.results ≠ []
      ∧ pipelineOutcome cfg ao fo jobs
          = displayStage (runLoop cfg ao fo jobs initState).1.log
              (runLoop cfg ao fo jobs initState).1.results
              cfg.pageSize cfg.pageNumber) := by
  have h1 := runLoop_results_take cfg ao fo jobs initState
    (by simpa [initState] using hmax)
  rw [show initState.results = ([] : List ResultRow) from rfl] at h1
  simp only [List.nil_append, List.length_nil, Nat.sub_zero] at h1
  constructor
  · intro hs
    have hz : (runLoop cfg ao fo jobs initState).1.results = [] := by
      rw [h1, hs, List.take_nil]
    simp [pipelineOutcome, hz]
  · intro hs
    have hne : (runLoop cfg ao fo jobs initState).1.results ≠ [] := by
      rw [h1]
      intro hcon
      rcases List.take_eq_nil_iff.1 hcon with h | h
      · omega
      · exact hs h
    refine ⟨hne, ?_⟩
    have hlen : ¬ ((runLoop cfg ao fo jobs initState).1.results.length = 0) := by
      simpa [List.length_eq_zero] using hne
    simp [pipelineOutcome, hlen]

/-- Witness for C8 (amended): one fetched hostile posting, zero
survivors — the run halts with the no-jobs condition carrying the log. -/
theorem C8_witness :
    pipelineOutcome cfgPlain oracleDown oracleDown [RawJob.ok pHostile]
      = Outcome.noJobsWarning
          (runLoop cfgPlain oracleDown oracleDown [RawJob.ok pHostile] initState).1.log :=
  (C8_terminalConditions cfgPlain oracleDown oracleDown [RawJob.ok pHostile]
    (by decide)).1 (by decide)

/-! ## C9 — exclusion accounting -/

/-- C9: every processed posting contributes exactly one output — a result
row or a single exclusion record (never both, never two records); a
malformed posting is logged with the generic parsing-error reason and the
loop continues; and each log record traces back to a malformed job or to
a posting some check excluded, with its specific reason drawn from the
four fixed reason strings. -/
theorem C9_exclusionLog (cfg : PipelineConfig) (ao fo : Oracle)
    (jobs : List RawJob) :
    ((runLoop cfg ao fo jobs initState).1.results.length
        + (runLoop cfg ao fo jobs initState).1.log.length)
        + (runLoop cfg ao fo jobs initState).2.length = jobs.length
  ∧ (∀ (e : String) (rest : List RawJob) (s : LoopState),
        runLoop cfg ao fo (RawJob.malformed e :: rest) s
          = runLoop cfg ao fo rest
              { s with log := s.log ++ [("Unknown", "Unknown", "job parsing error: " ++ e)] })
  ∧ (∀ r ∈ (runLoop cfg ao fo jobs initState).1.log,
        (∃ e, RawJob.malformed e ∈ jobs
            ∧ r = ("Unknown", "Unknown", "job parsing error: " ++ e))
      ∨ (∃ p reason, RawJob.ok p ∈ jobs
            ∧ (processJob cfg ao fo p).1 = Decision.excluded reason
            ∧ r = (p.company, p.title, reason)))
  ∧ (∀ (p : Posting) (reason : String),
        (processJob cfg ao fo p).1 = Decision.excluded reason →
        reason = "contains \x27no recruiters\x27 language"
      ∨ reason = "title does not match keyword"
      ∨ reason = "GPT says \x27yes\x27 to agency"
      ∨ reason = "fallback: company name matched agency keyword") := by
  refine ⟨?_, ?_, ?_, ?_⟩
  · have h := runLoop_count cfg ao fo jobs initState
    rw [show initState.results.length = 0 from rfl,
        show initState.log.length = 0 from rfl] at h
    omega
  · intro e rest s
    simp [runLoop]
  · intro r hr
    rcases runLoop_log_from cfg ao fo jobs initState r hr with h | h | h
    · simp [initState] at h
    · exact Or.inl h
    · exact Or.inr h
  · intro p reason h
    by_cases h1 : hostileOf p
    · simp [processJob, h1] at h
      exact Or.inl h.symm
    · by_cases h2 : relevantOf cfg.jobQuery p
      · have h3 : (postKeywordStage cfg ao fo p).1 = Decision.excluded reason := by
          simpa [processJob, h1, h2] using h
        rcases postKeywordStage_reason cfg ao fo p reason h3 with h4 | h4
        · exact Or.inr (Or.inr (Or.inl h4))
        · exact Or.inr (Or.inr (Or.inr h4))
      · simp [processJob, h1, h2] at h
        exact Or.inr (Or.inl h.symm)

/-- Witness for C9 at a concrete run with one malformed job: the single
log record is the generic parsing-error record. -/
theorem C9_witness :
    (∃ e, RawJob.malformed e ∈ [RawJob.malformed "boom"]
        ∧ (("Unknown", "Unknown", "job parsing error: boom") : ExclusionRecord)
            = ("Unknown", "Unknown", "job parsing error: " ++ e))
  ∨ (∃ p reason, RawJob.ok p ∈ [RawJob.malformed "boom"]
        ∧ (processJob cfgPlain oracleDown oracleDown p).1 = Decision.excluded reason
        ∧ (("Unknown", "Unknown", "job parsing error: boom") : ExclusionRecord)
            = (p.company, p.title, reason)) :=
  (C9_exclusionLog cfgPlain oracleDown oracleDown [RawJob.malformed "boom"]).2.2.1
    ("Unknown", "Unknown", "job parsing error: boom") (by decide)

/-! ## C10 — cross-boundary hostility match -/

/-- C10: the hostility check runs on title and description joined by a
single space, so a hostile phrase can match across the boundary: a
posting whose title ends in "no" and whose description starts with
"recruiters" is excluded with the hostility reason although neither the
title alone nor the description alone contains any hostile phrase. -/
theorem C10_boundaryMatch :
    ∃ p : Posting,
      strEndsWith p.title "no" = true
    ∧ strStartsWith p.description "recruiters" = true
    ∧ hostileText p.title = false
    ∧ hostileText p.description = false
    ∧ hostileOf p = true
    ∧ ∀ (cfg : PipelineConfig) (ao fo : Oracle),
        (processJob cfg ao fo p).1
          = Decision.excluded "contains \x27no recruiters\x27 language" := by
  refine ⟨pHostile, by decide, by decide, by decide, by decide, by decide, ?_⟩
  intro cfg ao fo
  simp [processJob, show hostileOf pHostile = true from by decide]

end ACRJobs
